import Mathlib

/-!
Shallow embedding of the graph-coloring register-allocation core of
`RAColorBasedCoalescing.cpp` (the `our-algorithm` variant): interference-graph
construction, spill-cost estimation, the degree-ordered randomized coloring
pass with extended (negative) colors, the `selectOrSplit` resolution step, and
the per-round scratch-state lifecycle.

Virtual registers are modelled as `Nat` handles, colors as `Int`
(`COLOR_INVALID = 0`, real colors are positive physical-register ids, extended
colors are negative).  The process-wide scratch maps of the source are a
`Scratch` record threaded through every function; `std::map` lookups with
`operator[]` default values are association-list lookups defaulting to `0`.
The C++ `rand()` stream is an explicit `rng : Nat → Nat` with a consumption
index.  `unsigned` arithmetic (`possibilities = Colors.size() -
neighborColors.size()`) is modelled with an explicit wrap at `2 ^ 32`.
-/

namespace RegAlloc

/-- `COLOR_INVALID` from the source: the sentinel meaning "no color". -/
def COLOR_INVALID : Int := 0

/-- Lookup in a `std::map<unsigned, int>`: `m[v]` returns `0` when the key is
absent (value-initialized), otherwise the stored value. -/
def mLookup (m : List (Nat × Int)) (v : Nat) : Int :=
  ((m.find? (fun p => p.1 == v)).map Prod.snd).getD 0

/-- Lookup in `std::map<unsigned, double>` with default `0`. -/
def mLookupQ (m : List (Nat × ℚ)) (v : Nat) : ℚ :=
  ((m.find? (fun p => p.1 == v)).map Prod.snd).getD 0

/-- The process-wide scratch state of the allocator (the anonymous-namespace
globals of the source file).  `coloringPq` holds the pending
`(Degree[vreg], vreg)` pairs of `ColoringPq`. -/
@[ext]
structure Scratch where
  interferenceGraph : Nat → Finset Nat
  igKeys : Finset Nat
  degree : Nat → Nat
  onStack : Finset Nat
  coloringPq : List (Nat × Nat)
  colorsTemp : List (Nat × Int)
  colors : List (Nat × Int)
  copyRelated : Finset Nat
  extendedColors : List Int
  spillWeight : List (Nat × ℚ)

/-- The state all globals start in (and that `clearAll` restores). -/
def emptyScratch : Scratch :=
  ⟨fun _ => ∅, ∅, fun _ => 0, ∅, [], [], [], ∅, [], []⟩

/-- `isMarkedForSpill`: `Colors[vreg] < 0`. -/
def isMarkedForSpill (s : Scratch) (v : Nat) : Bool :=
  decide (mLookup s.colors v < 0)

/-! ### Interference Graph Builder (`buildInterferenceGraph`) -/

/-- One conditional directed edge insertion with its degree increment:
`if(!InterferenceGraph[u].count(v)) { InterferenceGraph[u].insert(v); Degree[u]++; }`. -/
def insEdge (s : Scratch) (u v : Nat) : Scratch :=
  if v ∈ s.interferenceGraph u then s
  else
    { s with
      interferenceGraph := fun x =>
        if x = u then insert v (s.interferenceGraph u) else s.interferenceGraph x,
      degree := fun x => if x = u then s.degree u + 1 else s.degree x }

/-- Body of the overlap test for one ordered pair `(u, v1)`: on overlap both
directed edges are (conditionally) inserted; the `operator[]` accesses create
both map keys. -/
def processPair (ov : Nat → Nat → Bool) (s : Scratch) (u v1 : Nat) : Scratch :=
  if ov u v1 then
    insEdge (insEdge { s with igKeys := insert v1 (insert u s.igKeys) } u v1) v1 u
  else s

/-- The inner loop of `buildInterferenceGraph`: for each `v1` in the value
list, skip it when it is the same interval as `u` or marked for spill,
otherwise test overlap and insert edges. -/
def innerLoop (ov : Nat → Nat → Bool) (values : List Nat) (s : Scratch) (u : Nat) : Scratch :=
  values.foldl
    (fun s v1 =>
      if v1 = u then s
      else if isMarkedForSpill s v1 then s
      else processPair ov s u v1)
    s

/-- Registration of an outer-loop node: `OnStack[vReg] = false;
InterferenceGraph[vReg].insert(0); InterferenceGraph[vReg].erase(0);`. -/
def registerNode (s : Scratch) (u : Nat) : Scratch :=
  { s with
    onStack := insert u s.onStack,
    igKeys := insert u s.igKeys,
    interferenceGraph := fun x =>
      if x = u then (insert 0 (s.interferenceGraph u)).erase 0
      else s.interferenceGraph x }

/-- `buildInterferenceGraph`: `values` is the list of virtual registers with a
non-`dbg`-empty use list, in index order; `ov` is the live-interval `overlaps`
test. -/
def buildInterferenceGraph (ov : Nat → Nat → Bool) (values : List Nat) (s : Scratch) : Scratch :=
  values.foldl
    (fun s u =>
      if isMarkedForSpill s u then s
      else innerLoop ov values (registerNode s u) u)
    s

/-! ### Spill-Cost Estimator (`calculateSpillCosts`) -/

/-- One machine instruction referencing a value, as the estimator sees it:
its loop depth and the `readsWritesVirtualRegister` pair. -/
structure Inst where
  depth : Nat
  reads : Bool
  writes : Bool

/-- The contribution of one instruction:
`(readWrite.first + readWrite.second) * pow(10, loopDepth)` after the
`if (loopDepth > 35) loopDepth = 35;` cap. -/
def instWeight (i : Inst) : ℚ :=
  ((if i.reads then 1 else 0) + (if i.writes then 1 else 0)) *
    10 ^ (if 35 < i.depth then 35 else i.depth)

/-- The spec's formula for one instruction:
`(reads + writes) × 10^min(loopDepth, 35)`. -/
def specInstWeight (i : Inst) : ℚ :=
  ((if i.reads then 1 else 0) + (if i.writes then 1 else 0)) * 10 ^ min i.depth 35

/-- The accumulation loop over the def-use instructions of one value. -/
def spillCost (l : List Inst) : ℚ :=
  l.foldl (fun acc i => acc + instWeight i) 0

/-- `calculateSpillCosts`: iterates over the keys of `InterferenceGraph`
(`std::map` iteration order is ascending) and stores each weight. -/
def calculateSpillCosts (instrs : Nat → List Inst) (s : Scratch) : Scratch :=
  { s with
    spillWeight :=
      (s.igKeys.sort (· ≤ ·)).foldl
        (fun m v => (v, spillCost (instrs v)) :: m) s.spillWeight }

/-! ### Coloring Engine (`simplify`, `biasedSelectExtended`, `getColor`,
`getPotentialRegs`, `createNewExtendedColor`) -/

/-- `getPotentialRegs`: drain the `AllocationOrder` stream (which terminates
with `0`) and sort ascending.  `ord` is the raw enumeration for the register
class of the node. -/
def getPotentialRegs (ord : List Nat) : List Int :=
  List.insertionSort (· ≤ ·) ((ord.takeWhile (fun r => r ≠ 0)).map (fun r : Nat => (r : Int)))

/-- The `neighborColors` set computed inside `getColor`: the nonzero
`ColorsTemp` entries of the node's neighbors. -/
def neighborColorSet (s : Scratch) (v : Nat) : Finset Int :=
  ((s.interferenceGraph v).image (fun j => mLookup s.colorsTemp j)).erase 0

/-- `unsigned possibilities = Colors.size() - neighborColors.size();` —
`size_t` subtraction truncated to `unsigned`, i.e. the difference modulo
`2 ^ 32`. -/
def possibilities (len card : Nat) : Nat :=
  (((len : Int) - (card : Int)) % (2 ^ 32 : Int)).toNat

/-- The selection loop of `getColor`: skip candidates already used by a
neighbor, return the one reached when the countdown hits zero, or
`COLOR_INVALID` when the list is exhausted. -/
def scanColor (cs : List Int) (nb : Finset Int) (k : Nat) : Int :=
  match cs with
  | [] => 0
  | c :: rest =>
    if c ∈ nb then scanColor rest nb k
    else if k = 0 then c else scanColor rest nb (k - 1)

/-- `getColor(Colors, vreg)` reading the globals, with the `rand()` stream
made explicit: returns the chosen color and the next stream index (a draw is
consumed only when `possibilities` is nonzero). -/
def getColor (cs : List Int) (s : Scratch) (v : Nat) (rng : Nat → Nat) (i : Nat) :
    Int × Nat :=
  let nb := neighborColorSet s v
  let p := possibilities cs.length nb.card
  if p = 0 then (0, i) else (scanColor cs nb (rng i % p), i + 1)

/-- `createNewExtendedColor`: `-1` when the pool is empty, otherwise one less
than `ExtendedColors.back()`; the new color is pushed onto the pool. -/
def createNewExtendedColor (ext : List Int) : Int × List Int :=
  let nc := match ext.getLast? with
    | none => -1
    | some c => c - 1
  (nc, ext ++ [nc])

/-- The color-selection cascade of the `biasedSelectExtended` loop body for
one popped node `v`: try the real candidates, then the extended pool, then a
brand-new extended color.  Returns the chosen color, the resulting extended
pool and the next `rand()` stream index. -/
def chooseColor (cand : Nat → List Nat) (rng : Nat → Nat)
    (s : Scratch) (i : Nat) (v : Nat) : Int × List Int × Nat :=
  let r1 := getColor (getPotentialRegs (cand v)) s v rng i
  if r1.1 = 0 then
    let r2 := getColor s.extendedColors s v rng r1.2
    if r2.1 = 0 then
      let r3 := createNewExtendedColor s.extendedColors
      (r3.1, r3.2, r2.2)
    else (r2.1, s.extendedColors, r2.2)
  else (r1.1, s.extendedColors, r1.2)

/-- The body of the `biasedSelectExtended` loop for one popped node `v`:
select a color via `chooseColor` and record it in `ColorsTemp`
(`ColorsTemp[vreg] = color;`).  `cand v` is the raw `AllocationOrder` stream
of `v`; the second component threads the `rand()` stream index. -/
def colorNode (cand : Nat → List Nat) (rng : Nat → Nat)
    (si : Scratch × Nat) (v : Nat) : Scratch × Nat :=
  let c := chooseColor cand rng si.1 si.2 v
  ({ si.1 with colorsTemp := (v, c.1) :: si.1.colorsTemp, extendedColors := c.2.1 },
    c.2.2)

/-- Descending lexicographic order on `(degree, vreg)` pairs: the order in
which `std::priority_queue<std::pair<unsigned, unsigned>>` pops. -/
def pqGE (a b : Nat × Nat) : Prop :=
  b.1 < a.1 ∨ (b.1 = a.1 ∧ b.2 ≤ a.2)

instance : DecidableRel pqGE := fun a b => by
  unfold pqGE; infer_instance

instance : IsTotal (Nat × Nat) pqGE :=
  ⟨fun a b => by unfold pqGE; omega⟩

instance : IsTrans (Nat × Nat) pqGE :=
  ⟨fun a b c hab hbc => by unfold pqGE at *; omega⟩

/-- The order in which the priority queue delivers its content. -/
def popOrder (pq : List (Nat × Nat)) : List (Nat × Nat) :=
  List.insertionSort pqGE pq

/-- `simplify`: push `(Degree[vreg], vreg)` for every key of
`InterferenceGraph` (ascending map order) onto `ColoringPq`. -/
def simplify (s : Scratch) : Scratch :=
  { s with
    coloringPq :=
      s.coloringPq ++ (s.igKeys.sort (· ≤ ·)).map (fun v => (s.degree v, v)) }

/-- `biasedSelectExtended`: pop every `(degree, vreg)` pair in descending
order and color each node once; the queue is empty afterwards. -/
def biasedSelectExtended (cand : Nat → List Nat) (rng : Nat → Nat)
    (s : Scratch) (i : Nat) : Scratch × Nat :=
  ((popOrder s.coloringPq).map Prod.snd).foldl (colorNode cand rng)
    ({ s with coloringPq := [] }, i)

/-- `isExtendedColor`. -/
def isExtendedColor (c : Int) : Bool := decide (c < 0)

/-! ### Round lifecycle (`algorithm`, `clearAll`, `runOnMachineFunction`) -/

/-- `algorithm`: build the graph, compute the costs, fill the queue, color.
The `rand()` stream starts at index `0` (`srand` reseeds once per round). -/
def algorithm (ov : Nat → Nat → Bool) (values : List Nat)
    (instrs : Nat → List Inst) (cand : Nat → List Nat) (rng : Nat → Nat)
    (s : Scratch) : Scratch × Nat :=
  biasedSelectExtended cand rng
    (simplify (calculateSpillCosts instrs (buildInterferenceGraph ov values s))) 0

/-- `clearAll`: clears `InterferenceGraph`, `OnStack`, `ColorsTemp`, `Degree`,
`ExtendedColors`, `SpillWeight`, `CopyRelated` and `Colors` (but not
`ColoringPq`). -/
def clearAll (s : Scratch) : Scratch :=
  { s with
    interferenceGraph := fun _ => ∅,
    igKeys := ∅,
    onStack := ∅,
    colorsTemp := [],
    degree := fun _ => 0,
    extendedColors := [],
    spillWeight := [],
    copyRelated := ∅,
    colors := [] }

/-- The scratch state `runOnMachineFunction` leaves behind: `algorithm`
followed by `clearAll` (the allocation/rewrite steps in between read but do
not write the scratch maps). -/
def runRoundScratch (ov : Nat → Nat → Bool) (values : List Nat)
    (instrs : Nat → List Inst) (cand : Nat → List Nat) (rng : Nat → Nat)
    (s : Scratch) : Scratch :=
  clearAll (algorithm ov values instrs cand rng s).1

/-! ### Assignment resolution (`selectOrSplit`) and the driver boundary -/

/-- The three `LiveRegMatrix::checkInterference` outcomes distinguished by
`selectOrSplit`. -/
inductive IK where
  | free
  | virtReg
  | other
deriving DecidableEq

/-- `std::lower_bound` index of `x` in the ascending-sorted candidate list. -/
def lowerBoundIdx (l : List Int) (x : Int) : Nat :=
  (l.takeWhile (fun c => decide (c < x))).length

/-- `selectOrSplit` for one live interval, after the coloring pass: rotate
the sorted candidate list so the color chosen by `getColor` comes first, try
every physical register in that order (first `IK_Free` one wins), then try to
spill interferences (first `IK_VirtReg` candidate for which
`spillInterferences` succeeds), then spill the value itself — unless it is
not spillable, in which case `~0u` is returned. -/
def selectOrSplit (cands : List Nat) (colorsTempVal : Int) (ik : Nat → IK)
    (spillOk : Nat → Bool) (spillable : Bool) : Nat :=
  let potentialRegs := getPotentialRegs cands
  let idx := lowerBoundIdx potentialRegs colorsTempVal
  let rotated := (potentialRegs.rotate idx).map Int.toNat
  match rotated.find? (fun r => ik r == IK.free) with
  | some r => r
  | none =>
    match (rotated.filter (fun r => ik r == IK.virtReg)).find? spillOk with
    | some r => r
    | none => if spillable then 0 else 4294967295

/-- Modelled from the spec: the driver loop (`RegAllocBase::allocatePhysRegs`,
not part of this repository's sources) consumes `selectOrSplit`'s return
value; per §4.4 a `~0u` answer for a mandatory (non-spillable) value is an
unrecoverable allocation failure, `0` means the value was spilled, and any
other value is the assigned physical register. -/
inductive DriverOutcome where
  | assigned (r : Nat)
  | spilledSelf
  | fatalError
deriving DecidableEq

/-- Modelled from the spec: how the driver interprets one `selectOrSplit`
result (see `DriverOutcome`). -/
def driverStep (res : Nat) : DriverOutcome :=
  if res = 4294967295 then .fatalError
  else if res = 0 then .spilledSelf
  else .assigned res

/-! ### Basic lemmas about the embedded operations -/

/-- The spec's *available* set for one `getColor` call: the candidate list
minus the colors of already-colored neighbors. -/
def availList (cs : List Int) (nb : Finset Int) : List Int :=
  cs.filter (fun c => decide (c ∉ nb))

theorem mLookup_nil (v : Nat) : mLookup [] v = 0 := rfl

theorem mLookup_cons (u : Nat) (c : Int) (m : List (Nat × Int)) (v : Nat) :
    mLookup ((u, c) :: m) v = if u = v then c else mLookup m v := by
  by_cases h : u = v <;> simp [mLookup, List.find?_cons, h]

theorem availList_cons_mem (c : Int) (rest : List Int) (nb : Finset Int)
    (h : c ∈ nb) : availList (c :: rest) nb = availList rest nb := by
  simp [availList, List.filter_cons, h]

theorem availList_cons_not_mem (c : Int) (rest : List Int) (nb : Finset Int)
    (h : c ∉ nb) : availList (c :: rest) nb = c :: availList rest nb := by
  simp [availList, List.filter_cons, h]

theorem scanColor_eq_getD (cs : List Int) (nb : Finset Int) (k : Nat) :
    scanColor cs nb k = (availList cs nb).getD k 0 := by
  induction cs generalizing k with
  | nil => rfl
  | cons c rest ih =>
    by_cases hc : c ∈ nb
    · rw [availList_cons_mem c rest nb hc,
        show scanColor (c :: rest) nb k = scanColor rest nb k from by
          simp [scanColor, hc]]
      exact ih k
    · rw [availList_cons_not_mem c rest nb hc]
      cases k with
      | zero => simp [scanColor, hc]
      | succ k =>
        rw [show scanColor (c :: rest) nb (k + 1) = scanColor rest nb k from by
          simp [scanColor, hc]]
        rw [List.getD_cons_succ]
        exact ih k

theorem scanColor_spec (cs : List Int) (nb : Finset Int) (k : Nat) :
    scanColor cs nb k = 0 ∨
      (scanColor cs nb k ∈ cs ∧ scanColor cs nb k ∉ nb) := by
  rw [scanColor_eq_getD]
  rcases Nat.lt_or_ge k (availList cs nb).length with h | h
  · right
    have hmem : (availList cs nb).getD k 0 ∈ availList cs nb := by
      rw [List.getD_eq_getElem _ _ h]
      exact List.getElem_mem h
    have := List.mem_filter.mp hmem
    simpa using this
  · left
    exact List.getD_eq_default _ _ h

theorem scanColor_all_nb (cs : List Int) (nb : Finset Int) (k : Nat)
    (h : ∀ c ∈ cs, c ∈ nb) : scanColor cs nb k = 0 := by
  rw [scanColor_eq_getD]
  have hav : availList cs nb = [] := by
    unfold availList
    rw [List.filter_eq_nil_iff]
    intro c hc
    simp [h c hc]
  rw [hav]
  rfl

theorem possibilities_eq (len card : Nat) (h1 : card ≤ len) (h2 : len < 2 ^ 32) :
    possibilities len card = len - card := by
  unfold possibilities
  have h3 : ((len : Int) - card) % (2 ^ 32 : Int) = (len : Int) - card := by
    rw [Int.emod_eq_of_lt] <;> omega
  rw [h3]
  omega

theorem mem_getPotentialRegs_pos (l : List Nat) (c : Int)
    (h : c ∈ getPotentialRegs l) : 0 < c := by
  unfold getPotentialRegs at h
  have h2 := (List.perm_insertionSort (α := Int) (· ≤ ·) _).mem_iff.mp h
  rw [List.mem_map] at h2
  obtain ⟨r, hr, hrc⟩ := h2
  have h3 := List.mem_takeWhile_imp hr
  have h4 : r ≠ 0 := by simpa using h3
  omega

theorem getColor_spec (cs : List Int) (s : Scratch) (v : Nat) (rng : Nat → Nat)
    (i : Nat) :
    (getColor cs s v rng i).1 = 0 ∨
      ((getColor cs s v rng i).1 ∈ cs ∧
        (getColor cs s v rng i).1 ∉ neighborColorSet s v) := by
  unfold getColor
  dsimp only
  split
  · exact Or.inl rfl
  · exact scanColor_spec cs (neighborColorSet s v) _

theorem getColor_all_nb (cs : List Int) (s : Scratch) (v : Nat) (rng : Nat → Nat)
    (i : Nat) (h : ∀ c ∈ cs, c ∈ neighborColorSet s v) :
    (getColor cs s v rng i).1 = 0 := by
  unfold getColor
  dsimp only
  split
  · rfl
  · exact scanColor_all_nb cs _ _ h

/-- The extended-color pool as it is actually ever built in a round:
`[-1, -2, …, -n]` in creation order. -/
def negSeq (n : Nat) : List Int :=
  (List.range n).map (fun j : Nat => -(1 + (j : Int)))

theorem negSeq_succ (n : Nat) :
    negSeq (n + 1) = negSeq n ++ [-(1 + (n : Int))] := by
  simp [negSeq, List.range_succ]

theorem getLast?_negSeq (n : Nat) :
    (negSeq (n + 1)).getLast? = some (-(1 + (n : Int))) := by
  rw [negSeq_succ]
  exact List.getLast?_concat _

theorem createNewExtendedColor_negSeq (n : Nat) :
    createNewExtendedColor (negSeq n) = (-(1 + (n : Int)), negSeq (n + 1)) := by
  cases n with
  | zero =>
    simp [createNewExtendedColor, negSeq, List.range_succ]
  | succ m =>
    unfold createNewExtendedColor
    rw [getLast?_negSeq]
    dsimp only
    rw [negSeq_succ (m + 1)]
    have harith : -(1 + (m : Int)) - 1 = -(1 + ((m + 1 : Nat) : Int)) := by
      push_cast
      ring
    rw [harith]

theorem mem_negSeq_neg (n : Nat) (x : Int) (h : x ∈ negSeq n) : x < 0 := by
  unfold negSeq at h
  rw [List.mem_map] at h
  obtain ⟨j, _, hj⟩ := h
  have : (0 : Int) ≤ (j : Int) := Int.natCast_nonneg j
  omega

theorem createNewExtendedColor_neg (ext : List Int)
    (h : ∀ x ∈ ext, x < 0) : (createNewExtendedColor ext).1 < 0 := by
  unfold createNewExtendedColor
  dsimp only
  cases hlast : ext.getLast? with
  | none => simp
  | some c =>
    have hc : c ∈ ext := by
      obtain ⟨hne, heq⟩ := List.mem_getLast?_eq_getLast (l := ext) (x := c) hlast
      rw [heq]
      exact List.getLast_mem hne
    have := h c hc
    simp only
    omega

/-! ### Lemmas about one step of the coloring loop -/

theorem createNewExtendedColor_snd (ext : List Int) :
    (createNewExtendedColor ext).2 = ext ++ [(createNewExtendedColor ext).1] := rfl

/-- Case analysis on the color-selection cascade: the chosen color comes from
the real candidates (avoiding neighbor colors), from the extended pool
(avoiding neighbor colors), or is a brand-new extended color. -/
theorem chooseColor_spec (cand : Nat → List Nat) (rng : Nat → Nat) (s : Scratch)
    (i : Nat) (v : Nat) :
    ((chooseColor cand rng s i v).1 ∈ getPotentialRegs (cand v) ∧
       (chooseColor cand rng s i v).1 ∉ neighborColorSet s v ∧
       (chooseColor cand rng s i v).1 ≠ 0 ∧
       (chooseColor cand rng s i v).2.1 = s.extendedColors) ∨
    ((chooseColor cand rng s i v).1 ∈ s.extendedColors ∧
       (chooseColor cand rng s i v).1 ∉ neighborColorSet s v ∧
       (chooseColor cand rng s i v).1 ≠ 0 ∧
       (chooseColor cand rng s i v).2.1 = s.extendedColors) ∨
    ((chooseColor cand rng s i v).1 = (createNewExtendedColor s.extendedColors).1 ∧
       (chooseColor cand rng s i v).2.1 = (createNewExtendedColor s.extendedColors).2) := by
  unfold chooseColor
  dsimp only
  split
  · split
    · right; right
      exact ⟨rfl, rfl⟩
    · next h2 =>
      right; left
      rcases getColor_spec s.extendedColors s v rng
          (getColor (getPotentialRegs (cand v)) s v rng i).2 with h | ⟨hm, hn⟩
      · exact absurd h h2
      · exact ⟨hm, hn, h2, rfl⟩
  · next h1 =>
    left
    rcases getColor_spec (getPotentialRegs (cand v)) s v rng i with h | ⟨hm, hn⟩
    · exact absurd h h1
    · exact ⟨hm, hn, h1, rfl⟩

theorem chooseColor_ext_neg (cand : Nat → List Nat) (rng : Nat → Nat) (s : Scratch)
    (i : Nat) (v : Nat) (hext : ∀ x ∈ s.extendedColors, x < 0) :
    ∀ x ∈ (chooseColor cand rng s i v).2.1, x < 0 := by
  rcases chooseColor_spec cand rng s i v with ⟨_, _, _, h⟩ | ⟨_, _, _, h⟩ | ⟨_, h⟩
  · rw [h]; exact hext
  · rw [h]; exact hext
  · rw [h, createNewExtendedColor_snd]
    intro x hx
    rcases List.mem_append.mp hx with hx | hx
    · exact hext x hx
    · rw [List.mem_singleton.mp hx]
      exact createNewExtendedColor_neg s.extendedColors hext

/-- The chosen color is a positive real candidate avoiding the neighbor
colors, or a (negative) extended color. -/
theorem chooseColor_classify (cand : Nat → List Nat) (rng : Nat → Nat) (s : Scratch)
    (i : Nat) (v : Nat) (hext : ∀ x ∈ s.extendedColors, x < 0) :
    (0 < (chooseColor cand rng s i v).1 ∧
      (chooseColor cand rng s i v).1 ∈ getPotentialRegs (cand v) ∧
      (chooseColor cand rng s i v).1 ∉ neighborColorSet s v) ∨
    (chooseColor cand rng s i v).1 < 0 := by
  rcases chooseColor_spec cand rng s i v with ⟨hm, hn, _, _⟩ | ⟨hm, _, _, _⟩ | ⟨he, _⟩
  · exact Or.inl ⟨mem_getPotentialRegs_pos (cand v) _ hm, hm, hn⟩
  · exact Or.inr (hext _ hm)
  · rw [he]
    exact Or.inr (createNewExtendedColor_neg s.extendedColors hext)

theorem colorNode_fst (cand : Nat → List Nat) (rng : Nat → Nat)
    (si : Scratch × Nat) (v : Nat) :
    (colorNode cand rng si v).1 =
      { si.1 with
        colorsTemp := (v, (chooseColor cand rng si.1 si.2 v).1) :: si.1.colorsTemp,
        extendedColors := (chooseColor cand rng si.1 si.2 v).2.1 } := rfl

/-! ### Lemmas about the whole coloring pass (a fold of `colorNode`) -/

theorem foldl_colorNode_interferenceGraph (cand : Nat → List Nat) (rng : Nat → Nat)
    (l : List Nat) (si : Scratch × Nat) :
    (l.foldl (colorNode cand rng) si).1.interferenceGraph = si.1.interferenceGraph := by
  induction l generalizing si with
  | nil => rfl
  | cons v l ih => exact ih (colorNode cand rng si v)

theorem foldl_colorNode_coloringPq (cand : Nat → List Nat) (rng : Nat → Nat)
    (l : List Nat) (si : Scratch × Nat) :
    (l.foldl (colorNode cand rng) si).1.coloringPq = si.1.coloringPq := by
  induction l generalizing si with
  | nil => rfl
  | cons v l ih => exact ih (colorNode cand rng si v)

theorem foldl_colorNode_colorsTemp_shape (cand : Nat → List Nat) (rng : Nat → Nat)
    (l : List Nat) (si : Scratch × Nat) :
    ∃ pre : List (Nat × Int),
      (l.foldl (colorNode cand rng) si).1.colorsTemp = pre ++ si.1.colorsTemp ∧
      pre.map Prod.fst = l.reverse := by
  induction l generalizing si with
  | nil => exact ⟨[], rfl, rfl⟩
  | cons v l ih =>
    obtain ⟨pre, hpre, hmap⟩ := ih (colorNode cand rng si v)
    refine ⟨pre ++ [(v, (chooseColor cand rng si.1 si.2 v).1)], ?_, ?_⟩
    · rw [List.foldl_cons, hpre, colorNode_fst]
      simp
    · simp [hmap]

/-- Preservation of the coloring-validity invariant along the pass: adjacent
nodes never both hold the same positive color, and the extended pool stays
negative. -/
theorem foldl_colorNode_valid (cand : Nat → List Nat) (rng : Nat → Nat)
    (l : List Nat) (si : Scratch × Nat)
    (hIrr : ∀ a, a ∉ si.1.interferenceGraph a)
    (hSym : ∀ a b, a ∈ si.1.interferenceGraph b ↔ b ∈ si.1.interferenceGraph a)
    (hext : ∀ x ∈ si.1.extendedColors, x < 0)
    (hInv : ∀ u w, w ∈ si.1.interferenceGraph u →
      0 < mLookup si.1.colorsTemp u → 0 < mLookup si.1.colorsTemp w →
      mLookup si.1.colorsTemp u ≠ mLookup si.1.colorsTemp w) :
    (∀ x ∈ (l.foldl (colorNode cand rng) si).1.extendedColors, x < 0) ∧
    (∀ u w, w ∈ (l.foldl (colorNode cand rng) si).1.interferenceGraph u →
      0 < mLookup (l.foldl (colorNode cand rng) si).1.colorsTemp u →
      0 < mLookup (l.foldl (colorNode cand rng) si).1.colorsTemp w →
      mLookup (l.foldl (colorNode cand rng) si).1.colorsTemp u ≠
        mLookup (l.foldl (colorNode cand rng) si).1.colorsTemp w) := by
  induction l generalizing si with
  | nil => exact ⟨hext, hInv⟩
  | cons v l ih =>
    rw [List.foldl_cons]
    have hg : (colorNode cand rng si v).1.interferenceGraph = si.1.interferenceGraph := rfl
    refine ih (colorNode cand rng si v) ?_ ?_ ?_ ?_
    · rw [hg]; exact hIrr
    · rw [hg]; exact hSym
    · rw [colorNode_fst]
      exact chooseColor_ext_neg cand rng si.1 si.2 v hext
    · rw [colorNode_fst]
      dsimp only
      intro u w hw hu' hw'
      simp only [mLookup_cons] at hu' hw' ⊢
      by_cases huv : v = u <;> by_cases hwv : v = w
      · subst huv
        rw [← hwv] at hw
        exact absurd hw (hIrr v)
      · subst huv
        rw [if_pos rfl] at hu' ⊢
        rw [if_neg hwv] at hw' ⊢
        rcases chooseColor_classify cand rng si.1 si.2 v hext with ⟨_, _, hnb⟩ | hneg
        · intro heq
          apply hnb
          rw [heq]
          exact Finset.mem_erase.mpr
            ⟨by omega, Finset.mem_image_of_mem _ hw⟩
        · omega
      · subst hwv
        rw [if_pos rfl] at hw' ⊢
        rw [if_neg huv] at hu' ⊢
        have hu_in : u ∈ si.1.interferenceGraph v := (hSym v u).mp hw
        rcases chooseColor_classify cand rng si.1 si.2 v hext with ⟨_, _, hnb⟩ | hneg
        · intro heq
          apply hnb
          rw [← heq]
          exact Finset.mem_erase.mpr
            ⟨by omega, Finset.mem_image_of_mem _ hu_in⟩
        · omega
      · rw [if_neg huv] at hu' ⊢
        rw [if_neg hwv] at hw' ⊢
        exact hInv u w hw hu' hw'

/-- Every `ColorsTemp` entry the pass writes is a positive member of the
node's own sorted candidate list or a negative extended color, and the pool
stays negative. -/
theorem foldl_colorNode_entries (cand : Nat → List Nat) (rng : Nat → Nat)
    (l : List Nat) (si : Scratch × Nat)
    (hext : ∀ x ∈ si.1.extendedColors, x < 0)
    (hent : ∀ p ∈ si.1.colorsTemp,
      (0 < p.2 ∧ p.2 ∈ getPotentialRegs (cand p.1)) ∨ p.2 < 0) :
    (∀ x ∈ (l.foldl (colorNode cand rng) si).1.extendedColors, x < 0) ∧
    (∀ p ∈ (l.foldl (colorNode cand rng) si).1.colorsTemp,
      (0 < p.2 ∧ p.2 ∈ getPotentialRegs (cand p.1)) ∨ p.2 < 0) := by
  induction l generalizing si with
  | nil => exact ⟨hext, hent⟩
  | cons v l ih =>
    rw [List.foldl_cons]
    refine ih (colorNode cand rng si v) ?_ ?_
    · rw [colorNode_fst]
      exact chooseColor_ext_neg cand rng si.1 si.2 v hext
    · rw [colorNode_fst]
      dsimp only
      intro p hp
      rcases List.mem_cons.mp hp with hp | hp
      · subst hp
        rcases chooseColor_classify cand rng si.1 si.2 v hext with ⟨h1, h2, _⟩ | hneg
        · exact Or.inl ⟨h1, h2⟩
        · exact Or.inr hneg
      · exact hent p hp

/-- The extended pool always has the shape `[-1, -2, …, -m]`. -/
theorem foldl_colorNode_negSeq (cand : Nat → List Nat) (rng : Nat → Nat)
    (l : List Nat) (si : Scratch × Nat) (n : Nat)
    (h : si.1.extendedColors = negSeq n) :
    ∃ m, n ≤ m ∧ (l.foldl (colorNode cand rng) si).1.extendedColors = negSeq m := by
  induction l generalizing si n with
  | nil => exact ⟨n, le_refl n, h⟩
  | cons v l ih =>
    rw [List.foldl_cons]
    rcases chooseColor_spec cand rng si.1 si.2 v with ⟨_, _, _, he⟩ | ⟨_, _, _, he⟩ | ⟨_, he⟩
    · obtain ⟨m, hm, hfin⟩ := ih (colorNode cand rng si v) n (by rw [colorNode_fst]; dsimp only; rw [he, h])
      exact ⟨m, hm, hfin⟩
    · obtain ⟨m, hm, hfin⟩ := ih (colorNode cand rng si v) n (by rw [colorNode_fst]; dsimp only; rw [he, h])
      exact ⟨m, hm, hfin⟩
    · have hnew : (colorNode cand rng si v).1.extendedColors = negSeq (n + 1) := by
        rw [colorNode_fst]
        dsimp only
        rw [he, h, createNewExtendedColor_negSeq]
      obtain ⟨m, hm, hfin⟩ := ih (colorNode cand rng si v) (n + 1) hnew
      exact ⟨m, by omega, hfin⟩

theorem negSeq_length (m : Nat) : (negSeq m).length = m := by
  simp [negSeq]

theorem negSeq_getD (m j : Nat) (hj : j < m) :
    (negSeq m).getD j 0 = -(1 + (j : Int)) := by
  have hj2 : j < (negSeq m).length := by
    rw [negSeq_length]
    exact hj
  rw [List.getD_eq_getElem _ _ hj2]
  unfold negSeq
  rw [List.getElem_map]
  congr 1
  rw [List.getElem_range]

/-! ### Claim theorems -/

/-- C7: within one allocation round (the extended pool starts empty), the
extended colors in creation order are `-1, -2, -3, …`: the `j`-th created one
is `-(1+j)`, each equals its predecessor minus one, all are strictly
negative, and each newly created one is strictly smaller than every earlier
one. -/
theorem extended_color_allocation_monotonic (cand : Nat → List Nat)
    (rng : Nat → Nat) (s : Scratch) (i : Nat) (hext : s.extendedColors = []) :
    let E := (biasedSelectExtended cand rng s i).1.extendedColors
    (∀ j, j < E.length → E.getD j 0 = -(1 + (j : Int))) ∧
    (∀ j, j + 1 < E.length → E.getD (j + 1) 0 = E.getD j 0 - 1) ∧
    (∀ x ∈ E, x < 0) ∧
    (∀ j k, j < k → k < E.length → E.getD k 0 < E.getD j 0) := by
  intro E
  have hbase : ({ s with coloringPq := ([] : List (Nat × Nat)) } : Scratch).extendedColors
      = negSeq 0 := by
    exact hext
  obtain ⟨m, _, hE⟩ := foldl_colorNode_negSeq cand rng
    ((popOrder s.coloringPq).map Prod.snd) ({ s with coloringPq := [] }, i) 0 hbase
  have hEdef : E = negSeq m := hE
  rw [hEdef, negSeq_length]
  refine ⟨?_, ?_, ?_, ?_⟩
  · intro j hj
    exact negSeq_getD m j hj
  · intro j hj
    rw [negSeq_getD m j (by omega), negSeq_getD m (j + 1) hj]
    push_cast
    ring
  · intro x hx
    exact mem_negSeq_neg m x hx
  · intro j k hjk hk
    rw [negSeq_getD m j (by omega), negSeq_getD m k hk]
    omega

/-- Witness for C7: two mutually interfering nodes with empty candidate
lists force two extended-color creations; the theorem applies and in
particular yields `E = [-1, -2]`-shaped facts. -/
theorem extended_color_allocation_monotonic_witness :
    (emptyScratch.extendedColors = []) ∧
    (let E := (biasedSelectExtended (fun _ => [])
        (fun _ => 0)
        { emptyScratch with
          interferenceGraph := fun x =>
            if x = 1 then {2} else if x = 2 then {1} else ∅,
          coloringPq := [(1, 1), (1, 2)] } 0).1.extendedColors;
      (∀ j, j < E.length → E.getD j 0 = -(1 + (j : Int))) ∧
      (∀ j, j + 1 < E.length → E.getD (j + 1) 0 = E.getD j 0 - 1) ∧
      (∀ x ∈ E, x < 0) ∧
      (∀ j k, j < k → k < E.length → E.getD k 0 < E.getD j 0)) :=
  ⟨rfl, extended_color_allocation_monotonic (fun _ => []) (fun _ => 0)
    { emptyScratch with
      interferenceGraph := fun x =>
        if x = 1 then {2} else if x = 2 then {1} else ∅,
      coloringPq := [(1, 1), (1, 2)] } 0 rfl⟩

/-- C10: starting from the cleared per-round state, every color the coloring
pass records in `ColorsTemp` is either a strictly positive member of that
node's own sorted real candidate list or a strictly negative extended color —
never the sentinel `0` used for "no color yet". -/
theorem no_sentinel_color_assigned (cand : Nat → List Nat) (rng : Nat → Nat)
    (s : Scratch) (i : Nat) (hct : s.colorsTemp = []) (hext : s.extendedColors = []) :
    ∀ p ∈ (biasedSelectExtended cand rng s i).1.colorsTemp,
      (0 < p.2 ∧ p.2 ∈ getPotentialRegs (cand p.1)) ∨ p.2 < 0 := by
  refine (foldl_colorNode_entries cand rng ((popOrder s.coloringPq).map Prod.snd)
    ({ s with coloringPq := [] }, i) ?_ ?_).2
  · show ∀ x ∈ s.extendedColors, x < 0
    rw [hext]
    intro x hx
    exact absurd hx (List.not_mem_nil x)
  · show ∀ p ∈ s.colorsTemp, _
    rw [hct]
    intro p hp
    exact absurd hp (List.not_mem_nil p)

/-- Witness for C10 at a concrete two-node instance: the recorded entry
`(2, 7)` is a positive candidate of node 2 (and not the sentinel 0). -/
theorem no_sentinel_color_assigned_witness :
    (((2 : Nat), (7 : Int)) ∈ (biasedSelectExtended (fun _ => [7])
        (fun _ => 0)
        { emptyScratch with
          interferenceGraph := fun x =>
            if x = 1 then {2} else if x = 2 then {1} else ∅,
          coloringPq := [(1, 1), (1, 2)] } 0).1.colorsTemp) ∧
    ((0 < (((2 : Nat), (7 : Int)) : Nat × Int).2 ∧
        (((2 : Nat), (7 : Int)) : Nat × Int).2 ∈
          getPotentialRegs ((fun _ => [7]) (((2 : Nat), (7 : Int)) : Nat × Int).1)) ∨
      (((2 : Nat), (7 : Int)) : Nat × Int).2 < 0) :=
  ⟨by decide,
    no_sentinel_color_assigned (fun _ => [7]) (fun _ => 0)
      { emptyScratch with
        interferenceGraph := fun x =>
          if x = 1 then {2} else if x = 2 then {1} else ∅,
        coloringPq := [(1, 1), (1, 2)] } 0 rfl rfl ((2 : Nat), (7 : Int))
      (by decide)⟩

/-- C1: if at the end of the coloring pass both endpoints of an interference
edge hold real (strictly positive) colors in `ColorsTemp`, the colors differ.
Hypotheses: the pass starts from the cleared per-round state, and the graph
is symmetric and self-loop-free (as `buildInterferenceGraph` guarantees). -/
theorem coloring_pass_validity (cand : Nat → List Nat) (rng : Nat → Nat)
    (s : Scratch) (i : Nat) (u v : Nat)
    (hct : s.colorsTemp = []) (hext : s.extendedColors = [])
    (hIrr : ∀ a, a ∉ s.interferenceGraph a)
    (hSym : ∀ a b, a ∈ s.interferenceGraph b ↔ b ∈ s.interferenceGraph a)
    (hEdge : v ∈ s.interferenceGraph u)
    (hu : 0 < mLookup (biasedSelectExtended cand rng s i).1.colorsTemp u)
    (hv : 0 < mLookup (biasedSelectExtended cand rng s i).1.colorsTemp v) :
    mLookup (biasedSelectExtended cand rng s i).1.colorsTemp u ≠
      mLookup (biasedSelectExtended cand rng s i).1.colorsTemp v := by
  have hvalid := foldl_colorNode_valid cand rng ((popOrder s.coloringPq).map Prod.snd)
    ({ s with coloringPq := [] }, i) hIrr hSym
    (by rw [show ({ s with coloringPq := ([] : List (Nat × Nat)) } : Scratch).extendedColors
          = s.extendedColors from rfl, hext]
        intro x hx
        exact absurd hx (List.not_mem_nil x))
    (by intro a b _ ha _
        rw [show ({ s with coloringPq := ([] : List (Nat × Nat)) } : Scratch).colorsTemp
          = s.colorsTemp from rfl, hct] at ha
        exact absurd ha (by simp [mLookup_nil] at ha ⊢))
  have hEdge2 : v ∈ (((popOrder s.coloringPq).map Prod.snd).foldl (colorNode cand rng)
      ({ s with coloringPq := [] }, i)).1.interferenceGraph u := by
    rw [foldl_colorNode_interferenceGraph]
    exact hEdge
  exact hvalid.2 u v hEdge2 hu hv

/-- Witness for C1: two adjacent nodes with candidate streams `[7, 8]` end
with the distinct real colors `8` and `7`. -/
theorem coloring_pass_validity_witness :
    (0 < mLookup (biasedSelectExtended (fun _ => [7, 8]) (fun _ => 0)
        { emptyScratch with
          interferenceGraph := fun x =>
            if x = 1 then {2} else if x = 2 then {1} else ∅,
          coloringPq := [(1, 1), (1, 2)] } 0).1.colorsTemp 1) ∧
    (0 < mLookup (biasedSelectExtended (fun _ => [7, 8]) (fun _ => 0)
        { emptyScratch with
          interferenceGraph := fun x =>
            if x = 1 then {2} else if x = 2 then {1} else ∅,
          coloringPq := [(1, 1), (1, 2)] } 0).1.colorsTemp 2) ∧
    mLookup (biasedSelectExtended (fun _ => [7, 8]) (fun _ => 0)
        { emptyScratch with
          interferenceGraph := fun x =>
            if x = 1 then {2} else if x = 2 then {1} else ∅,
          coloringPq := [(1, 1), (1, 2)] } 0).1.colorsTemp 1 ≠
      mLookup (biasedSelectExtended (fun _ => [7, 8]) (fun _ => 0)
        { emptyScratch with
          interferenceGraph := fun x =>
            if x = 1 then {2} else if x = 2 then {1} else ∅,
          coloringPq := [(1, 1), (1, 2)] } 0).1.colorsTemp 2 := by
  refine ⟨by decide, by decide, ?_⟩
  refine coloring_pass_validity (fun _ => [7, 8]) (fun _ => 0) _ 0 1 2 rfl rfl ?_ ?_
    (by decide) (by decide) (by decide)
  · intro a
    by_cases h1 : a = 1 <;> by_cases h2 : a = 2 <;> simp [h1, h2]
  · intro a b
    by_cases ha1 : a = 1 <;> by_cases ha2 : a = 2 <;>
      by_cases hb1 : b = 1 <;> by_cases hb2 : b = 2 <;>
      simp [ha1, ha2, hb1, hb2]

/-! ### Spill-cost lemmas and C6 -/

theorem instWeight_eq_spec (i : Inst) : instWeight i = specInstWeight i := by
  unfold instWeight specInstWeight
  have hcap : (if 35 < i.depth then 35 else i.depth) = min i.depth 35 := by
    rw [min_def]
    split_ifs <;> omega
  rw [hcap]

theorem spillCost_foldl (l : List Inst) (acc : ℚ) :
    l.foldl (fun a i => a + instWeight i) acc = acc + (l.map specInstWeight).sum := by
  induction l generalizing acc with
  | nil => simp
  | cons i rest ih =>
    rw [List.foldl_cons, ih, List.map_cons, List.sum_cons, instWeight_eq_spec]
    ring

theorem spillCost_eq_sum (l : List Inst) :
    spillCost l = (l.map specInstWeight).sum := by
  unfold spillCost
  rw [spillCost_foldl]
  ring

theorem mLookupQ_cons (u : Nat) (c : ℚ) (m : List (Nat × ℚ)) (v : Nat) :
    mLookupQ ((u, c) :: m) v = if u = v then c else mLookupQ m v := by
  by_cases h : u = v <;> simp [mLookupQ, List.find?_cons, h]

theorem mLookupQ_foldl_prepend_not_mem (f : Nat → ℚ) (L : List Nat)
    (m0 : List (Nat × ℚ)) (v : Nat) (hv : v ∉ L) :
    mLookupQ (L.foldl (fun m w => (w, f w) :: m) m0) v = mLookupQ m0 v := by
  induction L generalizing m0 with
  | nil => rfl
  | cons w rest ih =>
    rw [List.foldl_cons]
    rw [ih ((w, f w) :: m0) (fun h => hv (List.mem_cons_of_mem w h))]
    rw [mLookupQ_cons]
    have hwv : ¬w = v := by
      intro h
      subst h
      exact hv (List.mem_cons_self w rest)
    rw [if_neg hwv]

theorem mLookupQ_foldl_prepend_mem (f : Nat → ℚ) (L : List Nat)
    (m0 : List (Nat × ℚ)) (v : Nat) (hv : v ∈ L) (hnd : L.Nodup) :
    mLookupQ (L.foldl (fun m w => (w, f w) :: m) m0) v = f v := by
  induction L generalizing m0 with
  | nil => exact absurd hv (List.not_mem_nil v)
  | cons w rest ih =>
    rw [List.foldl_cons]
    rcases List.mem_cons.mp hv with hv | hv
    · subst hv
      have hnotin : v ∉ rest := (List.nodup_cons.mp hnd).1
      rw [mLookupQ_foldl_prepend_not_mem f rest _ v hnotin, mLookupQ_cons, if_pos rfl]
    · exact ih ((w, f w) :: m0) hv (List.nodup_cons.mp hnd).2

/-- C6: for every node of the interference graph, the computed spill weight
equals the sum over its referencing instructions of
`(reads + writes) × 10^min(loopDepth, 35)`; the weight is non-negative, an
instruction that both reads and writes contributes `2 · 10^min(depth, 35)`,
and any loop depth beyond 35 yields exactly the depth-35 contribution. -/
theorem spill_weight_formula (instrs : Nat → List Inst) (s : Scratch) (v : Nat)
    (hv : v ∈ s.igKeys) :
    mLookupQ (calculateSpillCosts instrs s).spillWeight v =
      ((instrs v).map specInstWeight).sum ∧
    0 ≤ mLookupQ (calculateSpillCosts instrs s).spillWeight v ∧
    (∀ d : Nat, specInstWeight ⟨d, true, true⟩ = 2 * 10 ^ min d 35) ∧
    (∀ (d : Nat) (r w : Bool), 35 ≤ d → instWeight ⟨d, r, w⟩ = instWeight ⟨35, r, w⟩) := by
  have hmem : v ∈ s.igKeys.sort (· ≤ ·) := (Finset.mem_sort (· ≤ ·)).mpr hv
  have hnd : (s.igKeys.sort (· ≤ ·)).Nodup := Finset.sort_nodup (· ≤ ·) s.igKeys
  have hkey : mLookupQ (calculateSpillCosts instrs s).spillWeight v =
      spillCost (instrs v) := by
    unfold calculateSpillCosts
    exact mLookupQ_foldl_prepend_mem (fun w => spillCost (instrs w))
      (s.igKeys.sort (· ≤ ·)) s.spillWeight v hmem hnd
  have hsum : mLookupQ (calculateSpillCosts instrs s).spillWeight v =
      ((instrs v).map specInstWeight).sum := by
    rw [hkey, spillCost_eq_sum]
  refine ⟨hsum, ?_, ?_, ?_⟩
  · rw [hsum]
    apply List.sum_nonneg
    intro x hx
    rw [List.mem_map] at hx
    obtain ⟨insn, _, hxw⟩ := hx
    rw [← hxw]
    unfold specInstWeight
    have h10 : (0 : ℚ) ≤ 10 ^ min insn.depth 35 := by positivity
    split_ifs <;> nlinarith
  · intro d
    unfold specInstWeight
    norm_num
  · intro d r w hd
    unfold instWeight
    have hcap : (if 35 < d then 35 else d) = (if 35 < 35 then 35 else 35) := by
      split_ifs <;> omega
    simp only
    rw [hcap]

/-- Witness for C6 at a node with one doubly-counting instruction inside a
depth-2 loop and one read-only instruction at the saturated depth 40. -/
theorem spill_weight_formula_witness :
    ((4 : Nat) ∈ ({4} : Finset Nat)) ∧
    (mLookupQ (calculateSpillCosts
        (fun _ => [⟨2, true, true⟩, ⟨40, true, false⟩])
        { emptyScratch with igKeys := {4} }).spillWeight 4 =
      (([⟨2, true, true⟩, ⟨40, true, false⟩] : List Inst).map specInstWeight).sum ∧
    0 ≤ mLookupQ (calculateSpillCosts
        (fun _ => [⟨2, true, true⟩, ⟨40, true, false⟩])
        { emptyScratch with igKeys := {4} }).spillWeight 4 ∧
    (∀ d : Nat, specInstWeight ⟨d, true, true⟩ = 2 * 10 ^ min d 35) ∧
    (∀ (d : Nat) (r w : Bool), 35 ≤ d → instWeight ⟨d, r, w⟩ = instWeight ⟨35, r, w⟩)) :=
  ⟨by decide, spill_weight_formula (fun _ => [⟨2, true, true⟩, ⟨40, true, false⟩])
    { emptyScratch with igKeys := {4} } 4 (by decide)⟩

/-! ### C8: non-spillable value reaching the spill outcome -/

theorem mem_getPotentialRegs (l : List Nat) (c : Int)
    (h : c ∈ getPotentialRegs l) : ∃ r ∈ l, (r : Int) = c := by
  unfold getPotentialRegs at h
  have h2 := (List.perm_insertionSort (α := Int) (· ≤ ·) _).mem_iff.mp h
  rw [List.mem_map] at h2
  obtain ⟨r, hr, hrc⟩ := h2
  exact ⟨r, ( List.takeWhile_prefix _).subset hr, hrc⟩

/-- C8: when a non-spillable live interval reaches the bottom of
`selectOrSplit` (no candidate physical register is free and no interference
can be spilled in its favor), the function returns `~0u`, which the driver
treats as an unrecoverable allocation failure — the value is not silently
spilled or skipped. -/
theorem nonspillable_spill_is_fatal (cands : List Nat) (ctv : Int)
    (ik : Nat → IK) (spillOk : Nat → Bool)
    (hfree : ∀ r ∈ cands, ik r ≠ IK.free)
    (hspill : ∀ r ∈ cands, ik r = IK.virtReg → spillOk r = false) :
    selectOrSplit cands ctv ik spillOk false = 4294967295 ∧
    driverStep (selectOrSplit cands ctv ik spillOk false) = DriverOutcome.fatalError := by
  have hsel : selectOrSplit cands ctv ik spillOk false = 4294967295 := by
    unfold selectOrSplit
    dsimp only
    have hmemrot : ∀ x ∈ ((getPotentialRegs cands).rotate
        (lowerBoundIdx (getPotentialRegs cands) ctv)).map Int.toNat, x ∈ cands := by
      intro x hx
      rw [List.mem_map] at hx
      obtain ⟨y, hy, hyx⟩ := hx
      rw [List.mem_rotate] at hy
      obtain ⟨r, hr, hrc⟩ := mem_getPotentialRegs cands y hy
      rw [← hyx, ← hrc]
      simpa using hr
    have h1 : (((getPotentialRegs cands).rotate
        (lowerBoundIdx (getPotentialRegs cands) ctv)).map Int.toNat).find?
        (fun r => ik r == IK.free) = none := by
      rw [List.find?_eq_none]
      intro x hx
      simpa using hfree x (hmemrot x hx)
    rw [h1]
    have h2 : ((((getPotentialRegs cands).rotate
        (lowerBoundIdx (getPotentialRegs cands) ctv)).map Int.toNat).filter
        (fun r => ik r == IK.virtReg)).find? spillOk = none := by
      rw [List.find?_eq_none]
      intro x hx
      rw [List.mem_filter] at hx
      have := hspill x (hmemrot x hx.1) (by simpa using hx.2)
      simp [this]
    rw [h2]
    rfl
  exact ⟨hsel, by rw [hsel]; rfl⟩

/-- Witness for C8: one candidate register occupied by an unspillable-in-favor
virtual register; the non-spillable request ends in the fatal outcome. -/
theorem nonspillable_spill_is_fatal_witness :
    (∀ r ∈ [5], (fun _ => IK.virtReg) r ≠ IK.free) ∧
    (∀ r ∈ [5], (fun _ => IK.virtReg) r = IK.virtReg → (fun _ => false) r = false) ∧
    (selectOrSplit [5] 5 (fun _ => IK.virtReg) (fun _ => false) false = 4294967295 ∧
      driverStep (selectOrSplit [5] 5 (fun _ => IK.virtReg) (fun _ => false) false) =
        DriverOutcome.fatalError) :=
  ⟨by decide, by decide,
    nonspillable_spill_is_fatal [5] 5 (fun _ => IK.virtReg) (fun _ => false)
      (by decide) (by decide)⟩

/-! ### C9: the round clears all scratch state -/

theorem biasedSelectExtended_coloringPq (cand : Nat → List Nat) (rng : Nat → Nat)
    (s : Scratch) (i : Nat) :
    (biasedSelectExtended cand rng s i).1.coloringPq = [] := by
  unfold biasedSelectExtended
  rw [foldl_colorNode_coloringPq]

/-- C9: a full allocation round leaves every scratch map empty — the
interference graph, its key set, the degree map, `OnStack`, the coloring
queue (drained by `biasedSelectExtended`), `ColorsTemp`, `Colors`,
`CopyRelated`, the extended-color pool and the spill weights — so the next
round starts from the empty state and its outcome cannot depend on anything
left over from the previous function. -/
theorem round_clears_scratch_state (ov : Nat → Nat → Bool) (values : List Nat)
    (instrs : Nat → List Inst) (cand : Nat → List Nat) (rng : Nat → Nat)
    (s : Scratch) (ov2 : Nat → Nat → Bool) (values2 : List Nat)
    (instrs2 : Nat → List Inst) (cand2 : Nat → List Nat) (rng2 : Nat → Nat) :
    runRoundScratch ov values instrs cand rng s = emptyScratch ∧
    algorithm ov2 values2 instrs2 cand2 rng2 (runRoundScratch ov values instrs cand rng s) =
      algorithm ov2 values2 instrs2 cand2 rng2 emptyScratch := by
  have hpq : (algorithm ov values instrs cand rng s).1.coloringPq = [] := by
    unfold algorithm
    exact biasedSelectExtended_coloringPq cand rng _ 0
  have hclr : runRoundScratch ov values instrs cand rng s = emptyScratch := by
    unfold runRoundScratch clearAll emptyScratch
    ext1 <;> simp [hpq]
  exact ⟨hclr, by rw [hclr]⟩

/-! ### C4: characterization of the built interference graph -/

/-- The outer loop of `buildInterferenceGraph`, with the iterated prefix
decoupled from the inner-loop value list for the induction. -/
def buildOuter (ov : Nat → Nat → Bool) (values outer : List Nat) (s : Scratch) : Scratch :=
  outer.foldl
    (fun s u =>
      if isMarkedForSpill s u then s
      else innerLoop ov values (registerNode s u) u)
    s

theorem buildInterferenceGraph_eq_buildOuter (ov : Nat → Nat → Bool)
    (values : List Nat) (s : Scratch) :
    buildInterferenceGraph ov values s = buildOuter ov values values s := rfl

theorem insEdge_colors (s : Scratch) (u v : Nat) : (insEdge s u v).colors = s.colors := by
  unfold insEdge
  split <;> rfl

theorem processPair_colors (ov : Nat → Nat → Bool) (s : Scratch) (u v1 : Nat) :
    (processPair ov s u v1).colors = s.colors := by
  unfold processPair
  split
  · rw [insEdge_colors, insEdge_colors]
  · rfl

theorem innerLoop_colors (ov : Nat → Nat → Bool) (l : List Nat) (s : Scratch) (u : Nat) :
    (innerLoop ov l s u).colors = s.colors := by
  induction l generalizing s with
  | nil => rfl
  | cons v1 l ih =>
    show (innerLoop ov l _ u).colors = s.colors
    rw [ih]
    dsimp only
    split
    · rfl
    · split
      · rfl
      · rw [processPair_colors]

theorem isMarkedForSpill_congr (s s' : Scratch) (h : s'.colors = s.colors) :
    isMarkedForSpill s' = isMarkedForSpill s := by
  funext v
  unfold isMarkedForSpill
  rw [h]

theorem insEdge_mem (s : Scratch) (u v a b : Nat) :
    b ∈ (insEdge s u v).interferenceGraph a ↔
      b ∈ s.interferenceGraph a ∨ (a = u ∧ b = v) := by
  unfold insEdge
  split
  · next h =>
    constructor
    · exact Or.inl
    · rintro (hb | ⟨rfl, rfl⟩)
      · exact hb
      · exact h
  · next h =>
    dsimp only
    by_cases ha : a = u
    · subst ha
      rw [if_pos rfl, Finset.mem_insert]
      constructor
      · rintro (rfl | hb)
        · exact Or.inr ⟨rfl, rfl⟩
        · exact Or.inl hb
      · rintro (hb | ⟨-, rfl⟩)
        · exact Or.inr hb
        · exact Or.inl rfl
    · rw [if_neg ha]
      constructor
      · exact Or.inl
      · rintro (hb | ⟨ha', -⟩)
        · exact hb
        · exact absurd ha' ha

theorem processPair_mem (ov : Nat → Nat → Bool) (s : Scratch) (u v1 a b : Nat) :
    b ∈ (processPair ov s u v1).interferenceGraph a ↔
      b ∈ s.interferenceGraph a ∨
        (ov u v1 = true ∧ ((a = u ∧ b = v1) ∨ (a = v1 ∧ b = u))) := by
  unfold processPair
  split
  · next hov =>
    rw [insEdge_mem, insEdge_mem]
    show (b ∈ s.interferenceGraph a ∨ _) ∨ _ ↔ _
    constructor
    · rintro ((hb | h) | h)
      · exact Or.inl hb
      · exact Or.inr ⟨hov, Or.inl h⟩
      · exact Or.inr ⟨hov, Or.inr h⟩
    · rintro (hb | ⟨-, h | h⟩)
      · exact Or.inl (Or.inl hb)
      · exact Or.inl (Or.inr h)
      · exact Or.inr h
  · next hov =>
    have hov' : ov u v1 ≠ true := hov
    constructor
    · exact Or.inl
    · rintro (hb | ⟨h, -⟩)
      · exact hb
      · exact absurd h hov'

theorem registerNode_mem (s : Scratch) (u a b : Nat) :
    b ∈ (registerNode s u).interferenceGraph a ↔
      b ∈ s.interferenceGraph a ∧ ¬(a = u ∧ b = 0) := by
  unfold registerNode
  dsimp only
  by_cases ha : a = u
  · subst ha
    rw [if_pos rfl, Finset.mem_erase, Finset.mem_insert]
    constructor
    · rintro ⟨hb0, rfl | hb⟩
      · exact absurd rfl hb0
      · exact ⟨hb, fun h => hb0 h.2⟩
    · rintro ⟨hb, hno⟩
      exact ⟨fun h => hno ⟨rfl, h⟩, Or.inr hb⟩
  · rw [if_neg ha]
    constructor
    · intro hb
      exact ⟨hb, fun h => ha h.1⟩
    · exact And.left

theorem innerLoop_mem (ov : Nat → Nat → Bool) (l : List Nat) (s : Scratch)
    (u a b : Nat) :
    b ∈ (innerLoop ov l s u).interferenceGraph a ↔
      b ∈ s.interferenceGraph a ∨
      ∃ v1 ∈ l, v1 ≠ u ∧ isMarkedForSpill s v1 = false ∧ ov u v1 = true ∧
        ((a = u ∧ b = v1) ∨ (a = v1 ∧ b = u)) := by
  induction l generalizing s with
  | nil => simp [innerLoop]
  | cons v1 l ih =>
    have hstep : innerLoop ov (v1 :: l) s u =
        innerLoop ov l
          (if v1 = u then s
           else if isMarkedForSpill s v1 then s else processPair ov s u v1) u := rfl
    rw [hstep]
    by_cases h1 : v1 = u
    · rw [if_pos h1, ih s]
      simp only [List.mem_cons]
      constructor
      · rintro (hb | ⟨w, hw, hrest⟩)
        · exact Or.inl hb
        · exact Or.inr ⟨w, Or.inr hw, hrest⟩
      · rintro (hb | ⟨w, rfl | hw, hwu, hrest⟩)
        · exact Or.inl hb
        · exact absurd h1 hwu
        · exact Or.inr ⟨w, hw, hwu, hrest⟩
    · rw [if_neg h1]
      by_cases h2 : isMarkedForSpill s v1
      · rw [if_pos h2, ih s]
        simp only [List.mem_cons]
        constructor
        · rintro (hb | ⟨w, hw, hrest⟩)
          · exact Or.inl hb
          · exact Or.inr ⟨w, Or.inr hw, hrest⟩
        · rintro (hb | ⟨w, rfl | hw, hwu, hmk, hrest⟩)
          · exact Or.inl hb
          · rw [h2] at hmk
            exact absurd hmk (by simp)
          · exact Or.inr ⟨w, hw, hwu, hmk, hrest⟩
      · rw [if_neg h2, ih (processPair ov s u v1)]
        rw [isMarkedForSpill_congr s _ (processPair_colors ov s u v1)]
        rw [processPair_mem]
        simp only [List.mem_cons]
        constructor
        · rintro ((hb | ⟨hov, hpos⟩) | ⟨w, hw, hrest⟩)
          · exact Or.inl hb
          · exact Or.inr ⟨v1, Or.inl rfl, h1, by simp [h2], hov, hpos⟩
          · exact Or.inr ⟨w, Or.inr hw, hrest⟩
        · rintro (hb | ⟨w, rfl | hw, hwu, hmk, hov, hpos⟩)
          · exact Or.inl (Or.inl hb)
          · exact Or.inl (Or.inr ⟨hov, hpos⟩)
          · exact Or.inr ⟨w, hw, hwu, hmk, hov, hpos⟩

theorem zfree_registerNode (s : Scratch) (u : Nat)
    (hZ : ∀ x, 0 ∉ s.interferenceGraph x) :
    ∀ x, 0 ∉ (registerNode s u).interferenceGraph x := by
  intro x hx
  rw [registerNode_mem] at hx
  exact hZ x hx.1

theorem registerNode_mem_zfree (s : Scratch) (u a b : Nat)
    (hZ : ∀ x, 0 ∉ s.interferenceGraph x) :
    b ∈ (registerNode s u).interferenceGraph a ↔ b ∈ s.interferenceGraph a := by
  rw [registerNode_mem]
  constructor
  · exact And.left
  · intro hb
    refine ⟨hb, ?_⟩
    rintro ⟨-, rfl⟩
    exact hZ a hb

theorem zfree_innerLoop (ov : Nat → Nat → Bool) (l : List Nat) (s : Scratch) (u : Nat)
    (hZ : ∀ x, 0 ∉ s.interferenceGraph x) (hu : u ≠ 0) (hl : ∀ v ∈ l, v ≠ 0) :
    ∀ x, 0 ∉ (innerLoop ov l s u).interferenceGraph x := by
  intro x hx
  rw [innerLoop_mem] at hx
  rcases hx with hx | ⟨v1, hv1, -, -, -, ⟨-, h0⟩ | ⟨-, h0⟩⟩
  · exact hZ x hx
  · exact hl v1 hv1 h0.symm
  · exact hu h0.symm

theorem buildOuter_mem (ov : Nat → Nat → Bool) (values : List Nat) (outer : List Nat)
    (s : Scratch) (a b : Nat)
    (hZ : ∀ x, 0 ∉ s.interferenceGraph x)
    (houter : ∀ v ∈ outer, v ≠ 0)
    (hvalues : ∀ v ∈ values, v ≠ 0) :
    b ∈ (buildOuter ov values outer s).interferenceGraph a ↔
      b ∈ s.interferenceGraph a ∨
      ∃ u ∈ outer, isMarkedForSpill s u = false ∧
        ∃ v1 ∈ values, v1 ≠ u ∧ isMarkedForSpill s v1 = false ∧ ov u v1 = true ∧
          ((a = u ∧ b = v1) ∨ (a = v1 ∧ b = u)) := by
  induction outer generalizing s with
  | nil => simp [buildOuter]
  | cons u outer ih =>
    have hstep : buildOuter ov values (u :: outer) s =
        buildOuter ov values outer
          (if isMarkedForSpill s u then s
           else innerLoop ov values (registerNode s u) u) := rfl
    rw [hstep]
    have houter' : ∀ v ∈ outer, v ≠ 0 := fun v hv => houter v (List.mem_cons_of_mem u hv)
    by_cases hm : isMarkedForSpill s u
    · rw [if_pos hm, ih s hZ houter']
      simp only [List.mem_cons]
      constructor
      · rintro (hb | ⟨w, hw, hrest⟩)
        · exact Or.inl hb
        · exact Or.inr ⟨w, Or.inr hw, hrest⟩
      · rintro (hb | ⟨w, rfl | hw, hmk, hrest⟩)
        · exact Or.inl hb
        · rw [hm] at hmk
          exact absurd hmk (by simp)
        · exact Or.inr ⟨w, hw, hmk, hrest⟩
    · rw [if_neg hm]
      have hu0 : u ≠ 0 := houter u (List.mem_cons_self u outer)
      have hZr : ∀ x, 0 ∉ (registerNode s u).interferenceGraph x :=
        zfree_registerNode s u hZ
      have hZ' : ∀ x, 0 ∉ (innerLoop ov values (registerNode s u) u).interferenceGraph x :=
        zfree_innerLoop ov values (registerNode s u) u hZr hu0 hvalues
      have hcolors : (innerLoop ov values (registerNode s u) u).colors = s.colors := by
        rw [innerLoop_colors]
        rfl
      rw [ih (innerLoop ov values (registerNode s u) u) hZ' houter']
      rw [isMarkedForSpill_congr s _ hcolors]
      rw [innerLoop_mem]
      rw [isMarkedForSpill_congr s (registerNode s u) rfl]
      rw [registerNode_mem_zfree s u a b hZ]
      simp only [List.mem_cons]
      constructor
      · rintro ((hb | ⟨v1, hv1, hvu, hmk, hov, hpos⟩) | ⟨w, hw, hrest⟩)
        · exact Or.inl hb
        · exact Or.inr ⟨u, Or.inl rfl, by simp [hm], v1, hv1, hvu, hmk, hov, hpos⟩
        · exact Or.inr ⟨w, Or.inr hw, hrest⟩
      · rintro (hb | ⟨w, rfl | hw, hmk, hrest⟩)
        · exact Or.inl (Or.inl hb)
        · exact Or.inl (Or.inr hrest)
        · exact Or.inr ⟨w, hw, hmk, hrest⟩

/-- C4: after `buildInterferenceGraph` from the cleared per-round state
(with all virtual-register handles nonzero, as `index2VirtReg` guarantees,
and a symmetric `overlaps` test): no node is its own neighbor, adjacency is
symmetric, and an edge `(a, b)` is present exactly when `a` and `b` are
distinct listed values, neither is pre-marked for spill, and their live
ranges overlap. -/
theorem interference_graph_characterization (ov : Nat → Nat → Bool)
    (values : List Nat) (s : Scratch)
    (hempty : ∀ x, s.interferenceGraph x = ∅)
    (hpos : ∀ v ∈ values, v ≠ 0)
    (hovsym : ∀ x y, ov x y = ov y x) :
    (∀ a, a ∉ (buildInterferenceGraph ov values s).interferenceGraph a) ∧
    (∀ a b, b ∈ (buildInterferenceGraph ov values s).interferenceGraph a ↔
      a ∈ (buildInterferenceGraph ov values s).interferenceGraph b) ∧
    (∀ a b, b ∈ (buildInterferenceGraph ov values s).interferenceGraph a ↔
      (a ∈ values ∧ b ∈ values ∧ a ≠ b ∧
        isMarkedForSpill s a = false ∧ isMarkedForSpill s b = false ∧
        ov a b = true)) := by
  have hZ : ∀ x, 0 ∉ s.interferenceGraph x := by
    intro x hx
    rw [hempty x] at hx
    exact absurd hx (Finset.not_mem_empty 0)
  have hchar : ∀ a b, b ∈ (buildInterferenceGraph ov values s).interferenceGraph a ↔
      (a ∈ values ∧ b ∈ values ∧ a ≠ b ∧
        isMarkedForSpill s a = false ∧ isMarkedForSpill s b = false ∧
        ov a b = true) := by
    intro a b
    rw [buildInterferenceGraph_eq_buildOuter]
    rw [buildOuter_mem ov values values s a b hZ hpos hpos]
    rw [hempty a]
    simp only [Finset.not_mem_empty, false_or]
    constructor
    · rintro ⟨u, hu, hmu, v1, hv1, hvu, hmv, hov, ⟨rfl, rfl⟩ | ⟨rfl, rfl⟩⟩
      · exact ⟨hu, hv1, fun h => hvu h.symm, hmu, hmv, hov⟩
      · exact ⟨hv1, hu, hvu, hmv, hmu, by rw [hovsym]; exact hov⟩
    · rintro ⟨ha, hb, hab, hma, hmb, hov⟩
      exact ⟨a, ha, hma, b, hb, fun h => hab h.symm, hmb, hov, Or.inl ⟨rfl, rfl⟩⟩
  refine ⟨?_, ?_, hchar⟩
  · intro a ha
    rw [hchar a a] at ha
    exact ha.2.2.1 rfl
  · intro a b
    rw [hchar a b, hchar b a]
    constructor
    · rintro ⟨ha, hb, hab, hma, hmb, hov⟩
      exact ⟨hb, ha, hab.symm, hmb, hma, by rw [hovsym]; exact hov⟩
    · rintro ⟨hb, ha, hab, hmb, hma, hov⟩
      exact ⟨ha, hb, hab.symm, hma, hmb, by rw [hovsym]; exact hov⟩

/-- Witness for C4 on two overlapping values `1, 2` (overlap test
`a + b = 3`, which is symmetric). -/
theorem interference_graph_characterization_witness :
    ((∀ v ∈ [1, 2], v ≠ 0) ∧ (∀ x y, (fun a b => decide (a + b = 3)) x y =
        (fun a b => decide (a + b = 3)) y x)) ∧
    ((∀ a, a ∉ (buildInterferenceGraph (fun a b => decide (a + b = 3)) [1, 2]
        emptyScratch).interferenceGraph a) ∧
    (∀ a b, b ∈ (buildInterferenceGraph (fun a b => decide (a + b = 3)) [1, 2]
        emptyScratch).interferenceGraph a ↔
      a ∈ (buildInterferenceGraph (fun a b => decide (a + b = 3)) [1, 2]
        emptyScratch).interferenceGraph b) ∧
    (∀ a b, b ∈ (buildInterferenceGraph (fun a b => decide (a + b = 3)) [1, 2]
        emptyScratch).interferenceGraph a ↔
      (a ∈ [1, 2] ∧ b ∈ [1, 2] ∧ a ≠ b ∧
        isMarkedForSpill emptyScratch a = false ∧
        isMarkedForSpill emptyScratch b = false ∧
        (fun a b => decide (a + b = 3)) a b = true))) :=
  ⟨⟨by decide, fun x y => by simp [Nat.add_comm]⟩,
    interference_graph_characterization (fun a b => decide (a + b = 3)) [1, 2]
      emptyScratch (fun _ => rfl) (by decide) (fun x y => by simp [Nat.add_comm])⟩

/-! ### C5: the coloring pass is a single degree-descending pass -/

theorem pqGE_fst (a b : Nat × Nat) (h : pqGE a b) : b.1 ≤ a.1 := by
  unfold pqGE at h
  omega

/-- C5: the coloring engine processes the interference-graph nodes in a
single pass — the pop order of `ColoringPq` is sorted by non-increasing
degree, its node components are a permutation of the graph-key list (each
node appears exactly once, each queue entry carrying that node's degree), the
queue is empty afterwards, and every graph node ends with exactly one
`ColorsTemp` entry.  Totality of `biasedSelectExtended` (a fold over that
finite list) is termination. -/
theorem coloring_single_pass (cand : Nat → List Nat) (rng : Nat → Nat)
    (s : Scratch) (i : Nat) (hpq : s.coloringPq = []) (hct : s.colorsTemp = []) :
    ((popOrder (simplify s).coloringPq).map Prod.fst).Sorted (fun d e => e ≤ d) ∧
    (∀ p ∈ popOrder (simplify s).coloringPq, p.1 = s.degree p.2) ∧
    ((popOrder (simplify s).coloringPq).map Prod.snd).Perm (s.igKeys.sort (· ≤ ·)) ∧
    (∀ v ∈ s.igKeys,
      ((biasedSelectExtended cand rng (simplify s) i).1.colorsTemp.map Prod.fst).count v
        = 1) ∧
    (biasedSelectExtended cand rng (simplify s) i).1.coloringPq = [] := by
  have hpq2 : (simplify s).coloringPq =
      (s.igKeys.sort (· ≤ ·)).map (fun v => (s.degree v, v)) := by
    unfold simplify
    rw [hpq]
    rfl
  have hperm0 : (popOrder (simplify s).coloringPq).Perm ((simplify s).coloringPq) :=
    List.perm_insertionSort pqGE _
  have hpermsnd : ((popOrder (simplify s).coloringPq).map Prod.snd).Perm
      (s.igKeys.sort (· ≤ ·)) := by
    rw [hpq2]
    have h1 := (List.perm_insertionSort pqGE
      ((s.igKeys.sort (· ≤ ·)).map (fun v => (s.degree v, v)))).map Prod.snd
    rw [List.map_map] at h1
    have h2 : (s.igKeys.sort (· ≤ ·)).map (Prod.snd ∘ fun v => (s.degree v, v)) =
        s.igKeys.sort (· ≤ ·) := by
      rw [show (Prod.snd ∘ fun v => (s.degree v, v)) = id from rfl, List.map_id]
    rw [h2] at h1
    exact h1
  refine ⟨?_, ?_, hpermsnd, ?_, biasedSelectExtended_coloringPq cand rng (simplify s) i⟩
  · have hs := List.sorted_insertionSort pqGE ((simplify s).coloringPq)
    exact List.Pairwise.map Prod.fst pqGE_fst hs
  · intro p hp
    have hp2 : p ∈ (simplify s).coloringPq := hperm0.mem_iff.mp hp
    rw [hpq2] at hp2
    rw [List.mem_map] at hp2
    obtain ⟨v, -, rfl⟩ := hp2
    rfl
  · intro v hv
    obtain ⟨pre, hpre, hmap⟩ := foldl_colorNode_colorsTemp_shape cand rng
      ((popOrder (simplify s).coloringPq).map Prod.snd)
      ({ simplify s with coloringPq := [] }, i)
    have hbasect : ({ simplify s with coloringPq := ([] : List (Nat × Nat)) } : Scratch).colorsTemp
        = [] := hct
    unfold biasedSelectExtended
    rw [hpre, hbasect, List.append_nil, hmap, List.count_reverse]
    rw [hpermsnd.count_eq]
    exact List.count_eq_one_of_mem (Finset.sort_nodup (· ≤ ·) s.igKeys)
      ((Finset.mem_sort (· ≤ ·)).mpr hv)

/-- Witness for C5 on a two-node key set. -/
theorem coloring_single_pass_witness :
    (((popOrder (simplify { emptyScratch with igKeys := {1, 2} }).coloringPq).map
        Prod.fst).Sorted (fun d e => e ≤ d) ∧
    (∀ p ∈ popOrder (simplify { emptyScratch with igKeys := {1, 2} }).coloringPq,
      p.1 = ({ emptyScratch with igKeys := {1, 2} } : Scratch).degree p.2) ∧
    ((popOrder (simplify { emptyScratch with igKeys := {1, 2} }).coloringPq).map
        Prod.snd).Perm
      (({ emptyScratch with igKeys := {1, 2} } : Scratch).igKeys.sort (· ≤ ·)) ∧
    (∀ v ∈ ({ emptyScratch with igKeys := {1, 2} } : Scratch).igKeys,
      ((biasedSelectExtended (fun _ => [7]) (fun _ => 0)
          (simplify { emptyScratch with igKeys := {1, 2} }) 0).1.colorsTemp.map
        Prod.fst).count v = 1) ∧
    (biasedSelectExtended (fun _ => [7]) (fun _ => 0)
      (simplify { emptyScratch with igKeys := {1, 2} }) 0).1.coloringPq = []) :=
  coloring_single_pass (fun _ => [7]) (fun _ => 0)
    { emptyScratch with igKeys := {1, 2} } 0 rfl rfl

/-! ### C2 (corrected): the random selection over the available colors -/

/-- The claim as stated fails: node 3 has the non-empty available set `[5]`
(its neighbors 1 and 2 hold the extended colors `-1` and `-2`, which are not
candidates), yet with draw value 1 the engine assigns the brand-new extended
color `-3` instead of a member of available — `possibilities` wraps to
`2^32 - 1` because it subtracts *all* distinct nonzero neighbor colors from
the candidate count. -/
theorem uniform_selection_counterexample :
    availList (getPotentialRegs [5])
        (neighborColorSet { emptyScratch with
          interferenceGraph := fun x => if x = 3 then {1, 2} else ∅,
          colorsTemp := [(1, -1), (2, -2)],
          extendedColors := [-1, -2] } 3) = [5] ∧
    mLookup (colorNode (fun _ => [5]) (fun _ => 1)
      ({ emptyScratch with
          interferenceGraph := fun x => if x = 3 then {1, 2} else ∅,
          colorsTemp := [(1, -1), (2, -2)],
          extendedColors := [-1, -2] }, 0) 3).1.colorsTemp 3 = -3 := by
  decide

theorem availList_length (cs : List Int) (nb : Finset Int)
    (hnd : cs.Nodup) (hsub : ∀ c ∈ nb, c ∈ cs) :
    (availList cs nb).length = cs.length - nb.card := by
  have hsplit := List.length_eq_length_filter_add (l := cs)
    (fun c => decide (c ∈ nb))
  have hmemlen : (cs.filter (fun c => decide (c ∈ nb))).length = nb.card := by
    have hfin : (cs.filter (fun c => decide (c ∈ nb))).toFinset = nb := by
      ext x
      simp only [List.mem_toFinset, List.mem_filter, decide_eq_true_eq]
      exact ⟨And.right, fun hx => ⟨hsub x hx, hx⟩⟩
    exact (List.toFinset_card_of_nodup (hnd.filter _)).symm.trans
      (congrArg Finset.card hfin)
  have hav : availList cs nb = cs.filter (fun c => !(decide (c ∈ nb))) := by
    unfold availList
    congr 1
    funext c
    simp
  rw [hav]
  omega

/-- C2 (amended): the engine assigns the `(draw mod possibilities)`-th
candidate not used by a colored neighbor.  Under the side conditions the
counterexample forces — every colored neighbor's color is itself a candidate,
the candidate list is duplicate-free and shorter than `2^32`, and available
is non-empty — `possibilities` equals `|available|` and the draw indices map
bijectively onto the available list, so the node receives an element of
available, each with equal probability. -/
theorem uniform_selection_amended (cand : Nat → List Nat) (rng : Nat → Nat)
    (s : Scratch) (i : Nat) (v : Nat)
    (hnd : (getPotentialRegs (cand v)).Nodup)
    (hsub : ∀ c ∈ neighborColorSet s v, c ∈ getPotentialRegs (cand v))
    (hlen : (getPotentialRegs (cand v)).length < 2 ^ 32)
    (hne : availList (getPotentialRegs (cand v)) (neighborColorSet s v) ≠ []) :
    let cs := getPotentialRegs (cand v)
    let nb := neighborColorSet s v
    let avail := availList cs nb
    possibilities cs.length nb.card = avail.length ∧
    (∀ k, k < avail.length → scanColor cs nb k = avail.getD k 0) ∧
    avail.Nodup ∧
    (∀ c ∈ avail, ∃ k, k < avail.length ∧ scanColor cs nb k = c) ∧
    mLookup (colorNode cand rng (s, i) v).1.colorsTemp v =
      avail.getD (rng i % avail.length) 0 ∧
    avail.getD (rng i % avail.length) 0 ∈ avail := by
  intro cs nb avail
  have hcard : nb.card ≤ cs.length := by
    have := availList_length cs nb hnd hsub
    have h2 : (availList cs nb).length ≤ cs.length := List.length_filter_le _ _
    by_contra hc
    push_neg at hc
    have hzero : (availList cs nb).length = 0 := by omega
    exact hne (List.length_eq_zero.mp hzero)
  have hp : possibilities cs.length nb.card = avail.length := by
    rw [possibilities_eq cs.length nb.card hcard hlen, availList_length cs nb hnd hsub]
  have havpos : 0 < avail.length := by
    cases h : avail with
    | nil => exact absurd h hne
    | cons a t => simp [h]
  have hscan : ∀ k, k < avail.length → scanColor cs nb k = avail.getD k 0 :=
    fun k _ => scanColor_eq_getD cs nb k
  have hmem : ∀ k, k < avail.length → avail.getD k 0 ∈ avail := by
    intro k hk
    rw [List.getD_eq_getElem avail 0 hk]
    exact List.getElem_mem hk
  have hidx : rng i % avail.length < avail.length := Nat.mod_lt _ havpos
  have hc1 : (getColor cs s v rng i).1 = avail.getD (rng i % avail.length) 0 := by
    unfold getColor
    dsimp only
    rw [if_neg (by rw [hp]; omega)]
    rw [hp]
    exact hscan _ hidx
  have hc1mem : (getColor cs s v rng i).1 ∈ avail := by
    rw [hc1]
    exact hmem _ hidx
  have hc1pos : 0 < (getColor cs s v rng i).1 := by
    have : (getColor cs s v rng i).1 ∈ cs := (List.mem_filter.mp hc1mem).1
    exact mem_getPotentialRegs_pos (cand v) _ this
  have hchoose : (chooseColor cand rng s i v).1 = (getColor cs s v rng i).1 := by
    unfold chooseColor
    dsimp only
    rw [show getPotentialRegs (cand v) = cs from rfl]
    rw [if_neg (by omega)]
  refine ⟨hp, hscan, hnd.filter _, ?_, ?_, hmem _ hidx⟩
  · intro c hc
    obtain ⟨k, hk, hck⟩ := List.getElem_of_mem hc
    refine ⟨k, hk, ?_⟩
    rw [hscan k hk, List.getD_eq_getElem avail 0 hk, hck]
  · rw [colorNode_fst]
    dsimp only
    rw [mLookup_cons, if_pos rfl, hchoose, hc1]

/-- Witness for the amended C2: candidates `[5, 7]`, one neighbor colored 5;
available is `[7]` and the node receives 7. -/
theorem uniform_selection_amended_witness :
    ((getPotentialRegs ((fun _ => [7, 5]) 2)).Nodup ∧
     (availList (getPotentialRegs ((fun _ => [7, 5]) 2))
       (neighborColorSet { emptyScratch with
          interferenceGraph := fun x => if x = 2 then {1} else ∅,
          colorsTemp := [(1, 5)] } 2) ≠ [])) ∧
    (let cs := getPotentialRegs ((fun _ => [7, 5]) 2)
     let nb := neighborColorSet { emptyScratch with
          interferenceGraph := fun x => if x = 2 then {1} else ∅,
          colorsTemp := [(1, 5)] } 2
     let avail := availList cs nb
     possibilities cs.length nb.card = avail.length ∧
     (∀ k, k < avail.length → scanColor cs nb k = avail.getD k 0) ∧
     avail.Nodup ∧
     (∀ c ∈ avail, ∃ k, k < avail.length ∧ scanColor cs nb k = c) ∧
     mLookup (colorNode (fun _ => [7, 5]) (fun _ => 0)
       ({ emptyScratch with
          interferenceGraph := fun x => if x = 2 then {1} else ∅,
          colorsTemp := [(1, 5)] }, 0) 2).1.colorsTemp 2 =
       avail.getD ((fun _ => 0) 0 % avail.length) 0 ∧
     avail.getD ((fun _ => 0) 0 % avail.length) 0 ∈ avail) :=
  ⟨⟨by decide, by decide⟩,
   uniform_selection_amended (fun _ => [7, 5]) (fun _ => 0)
     { emptyScratch with
        interferenceGraph := fun x => if x = 2 then {1} else ∅,
        colorsTemp := [(1, 5)] } 0 2
     (by decide) (by decide) (by decide) (by decide)⟩

/-! ### C3 (corrected): when a brand-new extended color is created -/

/-- The claim as stated fails: node 3's real candidate `5` is exhausted (its
neighbor holds color 5), the extended color `-1` exists and is *not* used by
any neighbor of node 3, yet the engine allocates the brand-new extended
color `-2` — because `possibilities = |pool| - |neighborColors| = 1 - 1 = 0`
counts the real neighbor color 5 against the pool. -/
theorem extended_fallback_counterexample :
    availList (getPotentialRegs [5])
        (neighborColorSet { emptyScratch with
          interferenceGraph := fun x => if x = 3 then {1} else ∅,
          colorsTemp := [(1, 5)],
          extendedColors := [-1] } 3) = [] ∧
    ({ emptyScratch with
          interferenceGraph := fun x => if x = 3 then {1} else ∅,
          colorsTemp := [(1, 5)],
          extendedColors := [-1] } : Scratch).extendedColors = [-1] ∧
    (-1 : Int) ∉ neighborColorSet { emptyScratch with
          interferenceGraph := fun x => if x = 3 then {1} else ∅,
          colorsTemp := [(1, 5)],
          extendedColors := [-1] } 3 ∧
    (colorNode (fun _ => [5]) (fun _ => 0)
      ({ emptyScratch with
          interferenceGraph := fun x => if x = 3 then {1} else ∅,
          colorsTemp := [(1, 5)],
          extendedColors := [-1] }, 0) 3).1.extendedColors = [-1, -2] ∧
    mLookup (colorNode (fun _ => [5]) (fun _ => 0)
      ({ emptyScratch with
          interferenceGraph := fun x => if x = 3 then {1} else ∅,
          colorsTemp := [(1, 5)],
          extendedColors := [-1] }, 0) 3).1.colorsTemp 3 = -2 := by
  decide

/-- C3 (amended): when the available real candidates are exhausted, the
engine falls back to the extended pool with the same
subtract-neighbor-colors-and-draw procedure, and it allocates a brand-new
extended color exactly when that pool call returns `COLOR_INVALID`.  "No
extended color exists yet or every existing one is neighbor-used" still
implies the brand-new allocation, but is not necessary: the pool call also
returns `COLOR_INVALID` whenever the wrapped count
`|pool| - |all nonzero neighbor colors|` is zero or the draw index runs past
the unused pool colors. -/
theorem extended_fallback_amended (cand : Nat → List Nat) (rng : Nat → Nat)
    (s : Scratch) (i : Nat) (v : Nat)
    (hav : availList (getPotentialRegs (cand v)) (neighborColorSet s v) = []) :
    let c2 := getColor s.extendedColors s v rng
      (getColor (getPotentialRegs (cand v)) s v rng i).2
    let newc := (createNewExtendedColor s.extendedColors).1
    (colorNode cand rng (s, i) v).1.colorsTemp =
      (v, if c2.1 = 0 then newc else c2.1) :: s.colorsTemp ∧
    ((colorNode cand rng (s, i) v).1.extendedColors =
      if c2.1 = 0 then s.extendedColors ++ [newc] else s.extendedColors) ∧
    ((∀ x ∈ s.extendedColors, x ∈ neighborColorSet s v) → c2.1 = 0) ∧
    (c2.1 ≠ 0 → c2.1 ∈ s.extendedColors ∧ c2.1 ∉ neighborColorSet s v) := by
  intro c2 newc
  have hallnb : ∀ c ∈ getPotentialRegs (cand v), c ∈ neighborColorSet s v := by
    intro c hc
    by_contra hcn
    have : c ∈ availList (getPotentialRegs (cand v)) (neighborColorSet s v) := by
      unfold availList
      rw [List.mem_filter]
      exact ⟨hc, by simpa using hcn⟩
    rw [hav] at this
    exact absurd this (List.not_mem_nil c)
  have hc1 : (getColor (getPotentialRegs (cand v)) s v rng i).1 = 0 :=
    getColor_all_nb _ s v rng i hallnb
  have hchoose : (chooseColor cand rng s i v) =
      (if c2.1 = 0 then (newc, (createNewExtendedColor s.extendedColors).2, c2.2)
       else (c2.1, s.extendedColors, c2.2)) := by
    unfold chooseColor
    dsimp only
    rw [if_pos hc1]
  refine ⟨?_, ?_, ?_, ?_⟩
  · rw [colorNode_fst, hchoose]
    by_cases hc2 : c2.1 = 0
    · rw [if_pos hc2, if_pos hc2]
    · rw [if_neg hc2, if_neg hc2]
  · rw [colorNode_fst, hchoose]
    by_cases hc2 : c2.1 = 0
    · rw [if_pos hc2, if_pos hc2]
      dsimp only
      rw [createNewExtendedColor_snd]
    · rw [if_neg hc2, if_neg hc2]
  · intro hall
    exact getColor_all_nb s.extendedColors s v rng _ hall
  · intro hc2
    rcases getColor_spec s.extendedColors s v rng
        (getColor (getPotentialRegs (cand v)) s v rng i).2 with h | ⟨hm, hn⟩
    · exact absurd h hc2
    · exact ⟨hm, hn⟩

/-- Witness for the amended C3 at the counterexample's configuration. -/
theorem extended_fallback_amended_witness :
    (availList (getPotentialRegs ((fun _ => [5]) 3))
      (neighborColorSet { emptyScratch with
          interferenceGraph := fun x => if x = 3 then {1} else ∅,
          colorsTemp := [(1, 5)],
          extendedColors := [-1] } 3) = []) ∧
    (let c2 := getColor
        ({ emptyScratch with
          interferenceGraph := fun x => if x = 3 then {1} else ∅,
          colorsTemp := [(1, 5)],
          extendedColors := [-1] } : Scratch).extendedColors
        { emptyScratch with
          interferenceGraph := fun x => if x = 3 then {1} else ∅,
          colorsTemp := [(1, 5)],
          extendedColors := [-1] } 3 (fun _ => 0)
        (getColor (getPotentialRegs ((fun _ => [5]) 3))
          { emptyScratch with
            interferenceGraph := fun x => if x = 3 then {1} else ∅,
            colorsTemp := [(1, 5)],
            extendedColors := [-1] } 3 (fun _ => 0) 0).2
     let newc := (createNewExtendedColor
        ({ emptyScratch with
          interferenceGraph := fun x => if x = 3 then {1} else ∅,
          colorsTemp := [(1, 5)],
          extendedColors := [-1] } : Scratch).extendedColors).1
     (colorNode (fun _ => [5]) (fun _ => 0)
        ({ emptyScratch with
          interferenceGraph := fun x => if x = 3 then {1} else ∅,
          colorsTemp := [(1, 5)],
          extendedColors := [-1] }, 0) 3).1.colorsTemp =
        (3, if c2.1 = 0 then newc else c2.1) ::
          ({ emptyScratch with
            interferenceGraph := fun x => if x = 3 then {1} else ∅,
            colorsTemp := [(1, 5)],
            extendedColors := [-1] } : Scratch).colorsTemp ∧
     ((colorNode (fun _ => [5]) (fun _ => 0)
        ({ emptyScratch with
          interferenceGraph := fun x => if x = 3 then {1} else ∅,
          colorsTemp := [(1, 5)],
          extendedColors := [-1] }, 0) 3).1.extendedColors =
       if c2.1 = 0 then
         ({ emptyScratch with
            interferenceGraph := fun x => if x = 3 then {1} else ∅,
            colorsTemp := [(1, 5)],
            extendedColors := [-1] } : Scratch).extendedColors ++ [newc]
       else ({ emptyScratch with
            interferenceGraph := fun x => if x = 3 then {1} else ∅,
            colorsTemp := [(1, 5)],
            extendedColors := [-1] } : Scratch).extendedColors) ∧
     ((∀ x ∈ ({ emptyScratch with
            interferenceGraph := fun x => if x = 3 then {1} else ∅,
            colorsTemp := [(1, 5)],
            extendedColors := [-1] } : Scratch).extendedColors,
        x ∈ neighborColorSet { emptyScratch with
            interferenceGraph := fun x => if x = 3 then {1} else ∅,
            colorsTemp := [(1, 5)],
            extendedColors := [-1] } 3) → c2.1 = 0) ∧
     (c2.1 ≠ 0 → c2.1 ∈ ({ emptyScratch with
            interferenceGraph := fun x => if x = 3 then {1} else ∅,
            colorsTemp := [(1, 5)],
            extendedColors := [-1] } : Scratch).extendedColors ∧
       c2.1 ∉ neighborColorSet { emptyScratch with
            interferenceGraph := fun x => if x = 3 then {1} else ∅,
            colorsTemp := [(1, 5)],
            extendedColors := [-1] } 3)) :=
  ⟨by decide,
   extended_fallback_amended (fun _ => [5]) (fun _ => 0)
     { emptyScratch with
        interferenceGraph := fun x => if x = 3 then {1} else ∅,
        colorsTemp := [(1, 5)],
        extendedColors := [-1] } 0 3 (by decide)⟩

end RegAlloc
